import Mathlib

/-!
Verification of the redis-derive mapping/dispatch engine.

This file gives a shallow embedding of the core of the repository:

* `src/util.rs` — the name transformer (`transform_variant_name`,
  `transform_field_name`, `to_pascal_case`, `to_camel_case`,
  `to_snake_case`, `to_kebab_case`);
* `src/data_struct.rs` — the generated `ToRedisArgs`/`FromRedisValue`
  code for named-field structs, tuple structs and unit structs;
* `src/data_enum.rs` — the generated code for unit enums.

The generated code is a template instantiated per type; the embedding
models the template as functions parameterised by the field/variant
descriptors that the macro bakes into the generated code.  Field values
are drawn from a closed universe `RVal` covering the representative
leaf types exercised by the repository's tests (String, unsigned
integer, Option<String>, Vec<String>), with their redis-rs codecs
embedded alongside.  Character case mapping is modelled on ASCII (the
source delegates to Rust's Unicode case mapping, which agrees with this
model on ASCII input).  Byte strings are `List Nat` with an explicit
UTF-8 coder mirroring Rust's strict `String::from_utf8`.
-/

namespace RedisDerive

/-- Concatenation of the lists produced by `f` over a list, in order. -/
def flatMapL (f : α → List β) : List α → List β
  | [] => []
  | a :: as => f a ++ flatMapL f as

@[simp] theorem flatMapL_nil (f : α → List β) : flatMapL f [] = [] := rfl

@[simp] theorem flatMapL_cons (f : α → List β) (a : α) (as : List α) :
    flatMapL f (a :: as) = f a ++ flatMapL f as := rfl

/-! ## ASCII case mapping

The source uses Rust's `char::to_uppercase` / `char::to_lowercase` /
`char::is_uppercase` / `char::is_lowercase`; the model restricts the
case tables to ASCII, where the two coincide. -/

/-- ASCII lower-casing of one character (model of `char::to_lowercase`). -/
def charToLower (c : Char) : Char :=
  if 65 ≤ c.toNat && c.toNat ≤ 90 then Char.ofNat (c.toNat + 32) else c

/-- ASCII upper-casing of one character (model of `char::to_uppercase`). -/
def charToUpper (c : Char) : Char :=
  if 97 ≤ c.toNat && c.toNat ≤ 122 then Char.ofNat (c.toNat - 32) else c

/-- ASCII upper-case test (model of `char::is_uppercase`). -/
def isUpperCh (c : Char) : Bool := 65 ≤ c.toNat && c.toNat ≤ 90

/-- ASCII lower-case test (model of `char::is_lowercase`). -/
def isLowerCh (c : Char) : Bool := 97 ≤ c.toNat && c.toNat ≤ 122

/-- Full-string lower-casing (model of `str::to_lowercase`). -/
def strToLower (s : String) : String := ⟨s.toList.map charToLower⟩

/-- Full-string upper-casing (model of `str::to_uppercase`). -/
def strToUpper (s : String) : String := ⟨s.toList.map charToUpper⟩

/-! ## Case conversion (src/util.rs) -/

/-- Separator test used by `to_pascal_case`: `c == '_' || c == '-'`. -/
def isSepCh (c : Char) : Bool := c = '_' || c = '-'

/-- Character loop of `to_pascal_case` (src/util.rs:146-162): walks the
characters with a `capitalize_next` flag, dropping separators,
upper-casing the character after a separator (or the first character)
and lower-casing every other character. -/
def pascalAux : Bool → List Char → List Char
  | _, [] => []
  | capNext, c :: rest =>
    if isSepCh c then pascalAux true rest
    else if capNext then charToUpper c :: pascalAux false rest
    else charToLower c :: pascalAux false rest

/-- Model of `to_pascal_case` (src/util.rs:146-162). -/
def toPascalCase (s : String) : String := ⟨pascalAux true s.toList⟩

/-- Model of `to_camel_case` (src/util.rs:164-173): pascal-case, then
lower-case the first character. -/
def toCamelCase (s : String) : String :=
  match (toPascalCase s).toList with
  | [] => toPascalCase s
  | c :: rest => ⟨charToLower c :: rest⟩

/-- The separator condition of `to_snake_case` (src/util.rs:180-184):
an uppercase character that is not first and either follows a lowercase
character or precedes a lowercase character gets a `_` before it.
`isFirst` models `i > 0` being false, `prevLower` models the
`prev_is_lower` flag, and the lookahead inspects the next character. -/
def snakeSep (isFirst prevLower : Bool) (c : Char) (rest : List Char) : Bool :=
  isUpperCh c && !isFirst &&
    (prevLower || (match rest with
      | n :: _ => isLowerCh n
      | [] => false))

/-- The recursive part of `to_snake_case`, one step per character. -/
def snakeAux : Bool → Bool → List Char → List Char
  | _, _, [] => []
  | isFirst, prevLower, c :: rest =>
    (if snakeSep isFirst prevLower c rest then ['_'] else []) ++
      (charToLower c :: snakeAux false (isLowerCh c) rest)

/-- Model of `to_snake_case` (src/util.rs:175-191). -/
def toSnakeCase (s : String) : String := ⟨snakeAux true false s.toList⟩

/-- The `_` → `-` replacement of `to_kebab_case`. -/
def dashRep (c : Char) : Char := if c = '_' then '-' else c

/-- Model of `to_kebab_case` (src/util.rs:193-195): snake-case, then
replace `_` by `-`. -/
def toKebabCase (s : String) : String :=
  ⟨(toSnakeCase s).toList.map dashRep⟩

/-- The six case-conversion rules accepted by `rename_all`
(src/util.rs:118-124).  An unrecognized rule string aborts generation
(`panic!` in src/util.rs:125-129), so the runtime engine only ever sees
these six. -/
inductive RenameRule where
  | lowercase
  | uppercase
  | pascal
  | camel
  | snake
  | kebab
deriving DecidableEq, Repr

/-- Model of `transform_variant_name` (src/util.rs:112-131): no
directive returns the name unchanged, otherwise the directive's case
conversion is applied. -/
def transformVariantName (name : String) (renameAll : Option RenameRule) : String :=
  match renameAll with
  | none => name
  | some .lowercase => strToLower name
  | some .uppercase => strToUpper name
  | some .pascal => toPascalCase name
  | some .camel => toCamelCase name
  | some .snake => toSnakeCase name
  | some .kebab => toKebabCase name

/-- Model of `transform_field_name` (src/util.rs:133-144): a field-level
`rename` override wins unconditionally, otherwise fall back to
`transform_variant_name`. -/
def transformFieldName (name : String) (renameAll : Option RenameRule)
    (fieldRename : Option String) : String :=
  match fieldRename with
  | some r => r
  | none => transformVariantName name renameAll

/-! ## UTF-8 byte strings

Wire payloads are byte strings.  The generated decoders call Rust's
strict `String::from_utf8`; `utf8Decode` mirrors it (rejecting stray
continuation bytes, overlong forms, surrogates and values above
U+10FFFF), and `utf8Encode` mirrors `str::as_bytes`. -/

/-- UTF-8 encoding of a single scalar value. -/
def utf8EncodeChar (c : Char) : List Nat :=
  let n := c.toNat
  if n < 0x80 then [n]
  else if n < 0x800 then [0xC0 + n / 0x40, 0x80 + n % 0x40]
  else if n < 0x10000 then
    [0xE0 + n / 0x1000, 0x80 + n / 0x40 % 0x40, 0x80 + n % 0x40]
  else
    [0xF0 + n / 0x40000, 0x80 + n / 0x1000 % 0x40, 0x80 + n / 0x40 % 0x40, 0x80 + n % 0x40]

/-- UTF-8 encoding of a string (model of `str::as_bytes`). -/
def utf8Encode (s : String) : List Nat := flatMapL utf8EncodeChar s.toList

/-- Strict UTF-8 decoding loop (model of `String::from_utf8`). -/
def utf8DecodeAux : List Nat → Option (List Char)
  | [] => some []
  | b :: rest =>
    if b < 0x80 then
      match utf8DecodeAux rest with
      | some cs => some (Char.ofNat b :: cs)
      | none => none
    else if b < 0xC2 then none
    else if b < 0xE0 then
      match rest with
      | b1 :: rest2 =>
        if 0x80 ≤ b1 && b1 < 0xC0 then
          match utf8DecodeAux rest2 with
          | some cs => some (Char.ofNat ((b - 0xC0) * 0x40 + (b1 - 0x80)) :: cs)
          | none => none
        else none
      | [] => none
    else if b < 0xF0 then
      match rest with
      | b1 :: b2 :: rest3 =>
        let n := (b - 0xE0) * 0x1000 + (b1 - 0x80) * 0x40 + (b2 - 0x80)
        if (0x80 ≤ b1 && b1 < 0xC0) && (0x80 ≤ b2 && b2 < 0xC0) &&
            (0x800 ≤ n && (n < 0xD800 || 0xDFFF < n)) then
          match utf8DecodeAux rest3 with
          | some cs => some (Char.ofNat n :: cs)
          | none => none
        else none
      | _ => none
    else if b < 0xF5 then
      match rest with
      | b1 :: b2 :: b3 :: rest4 =>
        let n := (b - 0xF0) * 0x40000 + (b1 - 0x80) * 0x1000 + (b2 - 0x80) * 0x40 + (b3 - 0x80)
        if (0x80 ≤ b1 && b1 < 0xC0) && (0x80 ≤ b2 && b2 < 0xC0) &&
            (0x80 ≤ b3 && b3 < 0xC0) && (0x10000 ≤ n && n ≤ 0x10FFFF) then
          match utf8DecodeAux rest4 with
          | some cs => some (Char.ofNat n :: cs)
          | none => none
        else none
      | _ => none
    else none

/-- Strict UTF-8 decoding of a byte string (model of `String::from_utf8`). -/
def utf8Decode (bs : List Nat) : Option String :=
  match utf8DecodeAux bs with
  | some cs => some ⟨cs⟩
  | none => none

/-! ## The wire value and error model (external redis-rs types)

`Value` models the subset of `redis::Value` the generated code
scrutinises (plus `okay`/`boolean` as representatives of the catch-all
branches).  `RedisError` models `redis::RedisError` as built by
`RedisError::from((ErrorKind, &str))` and
`RedisError::from((ErrorKind, &str, String))`. -/

/-- Model of `redis::Value` (the wire value union). -/
inductive Value where
  | nil
  | int (i : Int)
  | bulkString (b : List Nat)
  | simpleString (s : String)
  | verbatimString (format : String) (text : String)
  | array (items : List Value)
  | map (pairs : List (Value × Value))
  | okay
  | boolean (b : Bool)

/-- Model of `redis::ErrorKind`; the generated code only ever uses
`ErrorKind::TypeError`. -/
inductive ErrorKind where
  | typeError
deriving DecidableEq, Repr

/-- Model of `redis::RedisError`: a kind, a static description, and an
optional detail string. -/
structure RedisError where
  kind : ErrorKind
  desc : String
  detail : Option String
deriving DecidableEq, Repr

/-- Rendering of an error inside a `format!("... {}", e)` context
(model of the library's `Display` for `RedisError`). -/
def renderRedisError (e : RedisError) : String :=
  e.desc ++ (match e.detail with
    | some d => ": " ++ d
    | none => "")

/-- `invalid_type_error!` of redis-rs: the error a leaf
`FromRedisValue` implementation returns for an unusable wire shape.
The library's detail string interpolates the offending value; the
detail is not modelled. -/
def invalidTypeError : RedisError :=
  ⟨.typeError, "Response was of incompatible type", none⟩

/-- The error redis-rs produces when `String::from_utf8` fails inside a
leaf `String` decode. -/
def leafUtf8Error : RedisError :=
  ⟨.typeError, "Invalid UTF-8", none⟩

/-! ## Leaf field types and their redis-rs codecs

A closed universe of the representative leaf field types used by the
repository's tests: `String`, an unsigned integer, `Option<String>`
and `Vec<String>`.  Their `ToRedisArgs`/`FromRedisValue`
implementations live in redis-rs (an external collaborator) and are
embedded here. -/

/-- Leaf field type tags. -/
inductive RTy where
  | str
  | nat
  | optStr
  | listStr
deriving DecidableEq, Repr

/-- Leaf field values. -/
inductive RVal where
  | str (s : String)
  | nat (n : Nat)
  | optStr (o : Option String)
  | listStr (l : List String)
deriving DecidableEq, Repr

/-- Model of redis-rs `FromRedisValue for String`, restricted to the
wire shapes in `Value`. -/
def stringFromValue : Value → Except RedisError String
  | .int i => .ok (toString i)
  | .simpleString s => .ok s
  | .verbatimString _ text => .ok text
  | .okay => .ok "OK"
  | .bulkString b =>
    match utf8Decode b with
    | some s => .ok s
    | none => .error leafUtf8Error
  | _ => .error invalidTypeError

/-- Decimal digit accumulation for `parseNat`. -/
def digitsToNat : Nat → List Char → Option Nat
  | acc, [] => some acc
  | acc, c :: rest =>
    if 48 ≤ c.toNat && c.toNat ≤ 57 then
      digitsToNat (acc * 10 + (c.toNat - 48)) rest
    else none

/-- Model of Rust's `str::parse::<u64>` on the happy path: a non-empty
all-digit string parses to its value (sign markers and overflow are not
modelled). -/
def parseNat (s : String) : Option Nat :=
  match s.toList with
  | [] => none
  | cs => digitsToNat 0 cs

/-- Model of redis-rs `FromRedisValue` for an unsigned integer. -/
def natFromValue : Value → Except RedisError Nat
  | .int i => if 0 ≤ i then .ok i.toNat else .error invalidTypeError
  | .simpleString s =>
    match parseNat s with
    | some n => .ok n
    | none => .error invalidTypeError
  | .bulkString b =>
    match utf8Decode b with
    | some s =>
      match parseNat s with
      | some n => .ok n
      | none => .error invalidTypeError
    | none => .error leafUtf8Error
  | _ => .error invalidTypeError

/-- Model of redis-rs `FromRedisValue for Option<String>`: `Nil`
decodes to `none`, anything else decodes the inner value. -/
def optStrFromValue (v : Value) : Except RedisError (Option String) :=
  match v with
  | .nil => .ok none
  | _ =>
    match stringFromValue v with
    | .ok s => .ok (some s)
    | .error e => .error e

/-- Model of redis-rs `FromRedisValue for Vec<String>`: an array
decodes element-wise, `Nil` decodes to the empty vector. -/
def listStrFromValue (v : Value) : Except RedisError (List String) :=
  match v with
  | .array items => goElems items
  | .nil => .ok []
  | _ => .error invalidTypeError
where
  goElems : List Value → Except RedisError (List String)
    | [] => .ok []
    | v :: vs =>
      match stringFromValue v with
      | .ok s =>
        match goElems vs with
        | .ok ss => .ok (s :: ss)
        | .error e => .error e
      | .error e => .error e

/-- The `FromRedisValue` dispatch for a declared field type. -/
def fromValue : RTy → Value → Except RedisError RVal
  | .str, v =>
    match stringFromValue v with
    | .ok s => .ok (.str s)
    | .error e => .error e
  | .nat, v =>
    match natFromValue v with
    | .ok n => .ok (.nat n)
    | .error e => .error e
  | .optStr, v =>
    match optStrFromValue v with
    | .ok o => .ok (.optStr o)
    | .error e => .error e
  | .listStr, v =>
    match listStrFromValue v with
    | .ok l => .ok (.listStr l)
    | .error e => .error e

/-- Model of redis-rs `ToRedisArgs::write_redis_args` for the leaf
types: the byte arguments a value appends to the write sink. -/
def writeArgsRVal : RVal → List (List Nat)
  | .str s => [utf8Encode s]
  | .nat n => [utf8Encode (toString n)]
  | .optStr none => []
  | .optStr (some s) => [utf8Encode s]
  | .listStr l => l.map utf8Encode

/-- Model of redis-rs `ToRedisArgs::num_of_args` for the leaf types. -/
def numArgsRVal : RVal → Nat
  | .str _ => 1
  | .nat _ => 1
  | .optStr none => 0
  | .optStr (some _) => 1
  | .listStr l => l.length

/-! ## Shape dispatcher — named-field structs (src/data_struct.rs)

The derive macro walks the declared fields, drops the ones carrying
`#[redis(skip)]` and bakes each remaining field's wire name (the output
of `transform_field_name`) into the generated code.  The functions
below are the generated code, parameterised by the baked field list. -/

/-- A named field as baked into the generated code: its wire name, its
`skip` flag and its declared leaf type. -/
structure FieldSpec where
  wireName : String
  skip : Bool
  ty : RTy
deriving DecidableEq, Repr

/-- The generation-time filtering of `#[redis(skip)]` fields
(src/data_struct.rs:18-20 and 114-116). -/
def regularFields (specs : List FieldSpec) : List FieldSpec :=
  specs.filter (fun f => !f.skip)

/-- Model of the generated `write_redis_args` for a named-field struct
(src/data_struct.rs:35-43): for each non-skipped field in declaration
order, append the wire name and then the field value's own arguments. -/
def encodeNamed (fields : List (FieldSpec × RVal)) : List (List Nat) :=
  flatMapL (fun f => utf8Encode f.1.wireName :: writeArgsRVal f.2)
    (fields.filter (fun f => !f.1.skip))

/-- Model of the generated `num_of_args` for a named-field struct
(src/data_struct.rs:45-52): one for each non-skipped field name plus
the field value's own argument count. -/
def numArgsNamed (fields : List (FieldSpec × RVal)) : Nat :=
  (fields.filter (fun f => !f.1.skip)).foldl
    (fun count f => count + 1 + numArgsRVal f.2) 0

/-- The transient name-to-value lookup a decode call builds
(`std::collections::HashMap`): modelled as a function, empty here. -/
def emptyLookup : String → Option Value := fun _ => none

/-- `HashMap::insert`: later inserts overwrite earlier ones. -/
def insertLookup (m : String → Option Value) (k : String) (v : Value) :
    String → Option Value :=
  fun x => if x = k then some v else m x

/-- Folding an even-length key-value sequence into the lookup
(src/data_struct.rs:135-141): each chunk of two contributes one entry,
the key being decoded as a `String` with errors propagated. -/
def buildPairsMap : List Value → (String → Option Value) →
    Except RedisError (String → Option Value)
  | [], m => .ok m
  | k :: v :: rest, m =>
    match stringFromValue k with
    | .ok s => buildPairsMap rest (insertLookup m s v)
    | .error e => .error e
  | [_], m => .ok m

/-- Folding a native map value into the lookup
(src/data_struct.rs:163-170), identically to `buildPairsMap`. -/
def buildMapPairs : List (Value × Value) → (String → Option Value) →
    Except RedisError (String → Option Value)
  | [], m => .ok m
  | (k, v) :: rest, m =>
    match stringFromValue k with
    | .ok s => buildMapPairs rest (insertLookup m s v)
    | .error e => .error e

/-- `RedisError::from((TypeError, "Missing required field", name))`
(src/data_struct.rs:153-157). -/
def missingFieldError (name : String) : RedisError :=
  ⟨.typeError, "Missing required field", some name⟩

/-- `RedisError::from((TypeError, "Failed to parse field",
format!("Field '{}': {}", name, e)))` (src/data_struct.rs:148-152). -/
def fieldFailureError (name : String) (e : RedisError) : RedisError :=
  ⟨.typeError, "Failed to parse field",
    some ("Field '" ++ name ++ "': " ++ renderRedisError e)⟩

/-- The struct-decode error for a `Nil` wire value
(src/data_struct.rs:192-197). -/
def structNilError : RedisError :=
  ⟨.typeError, "Cannot deserialize struct from nil value", none⟩

/-- The struct-decode error for any other unsupported wire shape
(src/data_struct.rs:198-203). -/
def structShapeError : RedisError :=
  ⟨.typeError, "Expected Array or Map for struct", none⟩

/-- The field-extraction loop of the generated named-struct decode
(src/data_struct.rs:143-161): for each baked field in declaration
order, look its wire name up; a present value is decoded with failures
wrapped in field context, an absent one aborts with the missing-field
error. -/
def decodeFieldsFrom (m : String → Option Value) :
    List FieldSpec → Except RedisError (List RVal)
  | [] => .ok []
  | f :: rest =>
    match m f.wireName with
    | some v =>
      match fromValue f.ty v with
      | .ok r =>
        match decodeFieldsFrom m rest with
        | .ok rs => .ok (r :: rs)
        | .error e => .error e
      | .error e => .error (fieldFailureError f.wireName e)
    | none => .error (missingFieldError f.wireName)

/-- Model of the generated `from_redis_value` for a named-field struct
(src/data_struct.rs:130-209): an even-length array or a native map is
folded into the lookup and the declared fields are extracted from it;
`Nil` and every other shape are rejected. -/
def decodeNamed (specs : List FieldSpec) (v : Value) :
    Except RedisError (List RVal) :=
  match v with
  | .array items =>
    if items.length % 2 = 0 then
      match buildPairsMap items emptyLookup with
      | .ok m => decodeFieldsFrom m (regularFields specs)
      | .error e => .error e
    else .error structShapeError
  | .map pairs =>
    match buildMapPairs pairs emptyLookup with
    | .ok m => decodeFieldsFrom m (regularFields specs)
    | .error e => .error e
  | .nil => .error structNilError
  | _ => .error structShapeError

/-! ## Shape dispatcher — tuple and unit structs (src/data_struct.rs) -/

/-- Model of the generated `write_redis_args` for a tuple struct
(src/data_struct.rs:62-69): each field's arguments in declaration
order, with no names. -/
def encodeTuple (vals : List RVal) : List (List Nat) :=
  flatMapL writeArgsRVal vals

/-- Model of the generated `num_of_args` for a tuple struct
(src/data_struct.rs:71-77). -/
def numArgsTuple (vals : List RVal) : Nat :=
  vals.foldl (fun count v => count + numArgsRVal v) 0

/-- `RedisError::from((TypeError, "Array length mismatch",
format!("Expected {} elements, got {}", expected, actual)))`
(src/data_struct.rs:222-227). -/
def arityError (expected actual : Nat) : RedisError :=
  ⟨.typeError, "Array length mismatch",
    some ("Expected " ++ toString expected ++ " elements, got " ++ toString actual)⟩

/-- `RedisError::from((TypeError, "Failed to parse tuple element",
format!("At index {}: {}", i, e)))` (src/data_struct.rs:232-237). -/
def tupleElemError (i : Nat) (e : RedisError) : RedisError :=
  ⟨.typeError, "Failed to parse tuple element",
    some ("At index " ++ toString i ++ ": " ++ renderRedisError e)⟩

/-- The tuple-decode error for a `Nil` wire value
(src/data_struct.rs:241-245). -/
def tupleNilError : RedisError :=
  ⟨.typeError, "Cannot deserialize tuple struct from nil", none⟩

/-- The tuple-decode error for any other non-array shape
(src/data_struct.rs:247-252). -/
def tupleShapeError : RedisError :=
  ⟨.typeError, "Expected Array for tuple struct", none⟩

/-- The positional element loop of the generated tuple decode
(src/data_struct.rs:230-239): element `i` is decoded into field `i`,
with a failure wrapped with its index.  `i` carries the current
index. -/
def decodeElemsFrom : Nat → List RTy → List Value → Except RedisError (List RVal)
  | _, [], _ => .ok []
  | i, ty :: tys, v :: vs =>
    match fromValue ty v with
    | .ok r =>
      match decodeElemsFrom (i + 1) tys vs with
      | .ok rs => .ok (r :: rs)
      | .error e => .error e
    | .error e => .error (tupleElemError i e)
  | _, _ :: _, [] => .error tupleShapeError

/-- Model of the generated `from_redis_value` for a tuple struct
(src/data_struct.rs:211-258): an array whose length equals the declared
field count is decoded positionally; a length mismatch is the arity
error; `Nil` and any other shape are rejected.  (The final case of
`decodeElemsFrom` is unreachable under the length guard.) -/
def decodeTuple (tys : List RTy) (v : Value) : Except RedisError (List RVal) :=
  match v with
  | .array items =>
    if items.length ≠ tys.length then
      .error (arityError tys.length items.length)
    else decodeElemsFrom 0 tys items
  | .nil => .error tupleNilError
  | _ => .error tupleShapeError

/-- Model of the generated `write_redis_args` for a unit struct
(src/data_struct.rs:86-88): no arguments. -/
def encodeUnit : List (List Nat) := []

/-- Model of the generated `num_of_args` for a unit struct
(src/data_struct.rs:90-92). -/
def numArgsUnit : Nat := 0

/-- Model of the generated `from_redis_value` for a unit struct
(src/data_struct.rs:261-266): every wire value is accepted. -/
def decodeUnit (_v : Value) : Except RedisError Unit := .ok ()

/-! ## Shape dispatcher — unit enums (src/data_enum.rs)

The macro bakes each variant's wire name (the output of
`transform_variant_name`) into the generated code, in declaration
order.  A decoded variant is identified here by its index into that
list. -/

/-- `", "`-joining of the variant wire names
(`variant_names.join(", ")`, src/data_enum.rs:91). -/
def joinSep (sep : String) : List String → String
  | [] => ""
  | [x] => x
  | x :: y :: rest => x ++ sep ++ joinSep sep (y :: rest)

/-- The unknown-variant error (src/data_enum.rs:94-107): its message
lists every baked variant wire name, joined in declaration order. -/
def unknownVariantError (tyName : String) (variants : List String)
    (unknown : String) : RedisError :=
  ⟨.typeError, "Unknown enum variant",
    some ("Unknown variant '" ++ unknown ++ "' for " ++ tyName ++
      ". Valid variants: [" ++ joinSep ", " variants ++ "]")⟩

/-- The enum-decode error for invalid UTF-8 in a binary string
(src/data_enum.rs:128-133).  The library's detail string renders the
`FromUtf8Error`; the detail is not modelled. -/
def enumUtf8Error : RedisError :=
  ⟨.typeError, "Invalid UTF-8 in enum value", none⟩

/-- The enum-decode error for a `Nil` wire value
(src/data_enum.rs:148-154). -/
def enumNilError (tyName : String) : RedisError :=
  ⟨.typeError, "Cannot deserialize enum from nil value",
    some ("Expected string value for " ++ tyName ++ ", got nil")⟩

/-- The enum-decode error for every other unsupported wire shape
(src/data_enum.rs:157-166). -/
def enumShapeError (tyName : String) : RedisError :=
  ⟨.typeError, "Cannot deserialize enum from Redis value type",
    some ("Expected string value for " ++ tyName ++
      ", got unsupported Redis value type")⟩

/-- The match-arm chain over the baked variant wire names
(src/data_enum.rs:81-88): the index of the first name equal to `s`. -/
def findVariant (s : String) : List String → Option Nat
  | [] => none
  | name :: rest =>
    if name = s then some 0
    else (findVariant s rest).map (fun i => i + 1)

/-- The `parse_string_to_enum` closure (src/data_enum.rs:110-118): the
match arms compare the extracted string against every variant wire name
in declaration order, the first exact match winning; no match yields
the unknown-variant error. -/
def parseEnumString (tyName : String) (variants : List String)
    (s : String) : Except RedisError Nat :=
  match findVariant s variants with
  | some i => .ok i
  | none => .error (unknownVariantError tyName variants s)

/-- Model of the generated `from_redis_value` for a unit enum
(src/data_enum.rs:120-169): binary strings are interpreted as UTF-8
(invalid UTF-8 is rejected), simple and verbatim strings are taken
as-is, and every other shape is rejected. -/
def decodeEnum (tyName : String) (variants : List String) (v : Value) :
    Except RedisError Nat :=
  match v with
  | .bulkString data =>
    match utf8Decode data with
    | some s => parseEnumString tyName variants s
    | none => .error enumUtf8Error
  | .simpleString s => parseEnumString tyName variants s
  | .verbatimString _ text => parseEnumString tyName variants text
  | .nil => .error (enumNilError tyName)
  | _ => .error (enumShapeError tyName)

/-- Model of the generated `write_redis_args` for a unit enum
(src/data_enum.rs:39-45): the matched variant's wire name is written as
a single binary argument. -/
def encodeEnumVariant (variants : List String) (i : Nat) : List (List Nat) :=
  [utf8Encode (variants.getD i "")]

/-- Model of the generated `num_of_args` for a unit enum
(src/data_enum.rs:47-49): always 1. -/
def numArgsEnum : Nat := 1

/-! ## Reference definitions for the claims

These definitions restate spec-level descriptions independently of the
source embedding, to be compared with it. -/

/-- Splitting a character list into words at `_`/`-` boundaries
(reference definition for the PascalCase word splitting). -/
def splitSepWords : List Char → List (List Char)
  | [] => [[]]
  | c :: rest =>
    if isSepCh c then [] :: splitSepWords rest
    else
      match splitSepWords rest with
      | w :: ws => (c :: w) :: ws
      | [] => [[c]]

/-- Upper-case a word's first letter and lower-case the rest
(reference definition). -/
def capitalizeWord : List Char → List Char
  | [] => []
  | c :: rest => charToUpper c :: rest.map charToLower

/-- Reference PascalCase: split at `_`/`-` boundaries only, capitalize
each word's first letter, lower-case the rest, join with no
separator. -/
def pascalSpec (s : String) : String :=
  ⟨flatMapL capitalizeWord (splitSepWords s.toList)⟩

/-- Reference last-write-wins lookup over an ordered key-value list:
later entries shadow earlier ones. -/
def lastLookup : List (String × Value) → String → Option Value
  | [], _ => none
  | (a, b) :: rest, k =>
    match lastLookup rest k with
    | some v => some v
    | none => if k = a then some b else none

/-- Flattening a pair list into the alternating key-value sequence. -/
def flattenPairsV (kvs : List (Value × Value)) : List Value :=
  flatMapL (fun p => [p.1, p.2]) kvs

/-- The pure insertion fold the decoder's lookup-building performs once
every key has decoded. -/
def foldInsert (m : String → Option Value) : List (String × Value) →
    (String → Option Value)
  | [] => m
  | (k, v) :: rest => foldInsert (insertLookup m k v) rest

/-- The wire shapes the named-struct decoder rejects: everything that
is neither an even-length array nor a native map. -/
def badStructShape : Value → Bool
  | .nil => true
  | .int _ => true
  | .bulkString _ => true
  | .simpleString _ => true
  | .verbatimString _ _ => true
  | .okay => true
  | .boolean _ => true
  | .array items => items.length % 2 == 1
  | .map _ => false

/-- Whether a decode outcome is one of the named-struct shape-mismatch
errors. -/
def isStructShapeError (r : Except RedisError (List RVal)) : Bool :=
  match r with
  | .error e =>
    e.desc == "Expected Array or Map for struct" ||
      e.desc == "Cannot deserialize struct from nil value"
  | .ok _ => false

/-- Whether a decode outcome is one of the enum type-mismatch errors. -/
def isEnumTypeMismatch (r : Except RedisError Nat) : Bool :=
  match r with
  | .error e =>
    e.desc == "Cannot deserialize enum from nil value" ||
      e.desc == "Cannot deserialize enum from Redis value type"
  | .ok _ => false

/-- A field value that survives the wire representation: it writes
exactly one argument and decoding that argument as the field's type
restores the value. -/
def losslessField (f : FieldSpec × RVal) : Prop :=
  (writeArgsRVal f.2).length = 1 ∧
  fromValue f.1.ty (.bulkString ((writeArgsRVal f.2).headD [])) = .ok f.2

/-- The key-value pair list a round-trip encodes to, pairing each
field's wire name with its single argument. -/
def encodedPairs (fields : List (FieldSpec × RVal)) : List (Value × Value) :=
  fields.map (fun f =>
    (Value.bulkString (utf8Encode f.1.wireName),
     Value.bulkString ((writeArgsRVal f.2).headD [])))

/-- The same pairs at the string-key level. -/
def encodedEntries (fields : List (FieldSpec × RVal)) : List (String × Value) :=
  fields.map (fun f =>
    (f.1.wireName, Value.bulkString ((writeArgsRVal f.2).headD [])))

/-- A bulk string carrying UTF-8 text. -/
def bulkStr (s : String) : Value := .bulkString (utf8Encode s)

/-- The `Person` struct of the repository's integration tests
(tests/integration_tests.rs:58-65): `name: String`, `age: u32`,
`email: Option<String>`, `hobbies: Vec<String>`, no attributes. -/
def personSpecs : List FieldSpec :=
  [⟨"name", false, .str⟩, ⟨"age", false, .nat⟩,
   ⟨"email", false, .optStr⟩, ⟨"hobbies", false, .listStr⟩]

/-- The wire map of `test_named_struct_with_missing_optional_field`
(tests/integration_tests.rs:113-126): the `email` key is absent. -/
def personMissingEmailInput : Value :=
  .map [(bulkStr "name", bulkStr "Bob"), (bulkStr "age", bulkStr "25"),
        (bulkStr "hobbies", .array [])]

/-- A concrete instance used to witness the round trip: a struct of
single-argument, lossless fields. -/
def c2Fields : List (FieldSpec × RVal) :=
  [(⟨"name", false, .str⟩, .str "Charlie"),
   (⟨"age", false, .nat⟩, .nat 40),
   (⟨"email", false, .optStr⟩, .optStr (some "charlie@test.com"))]

/-! ## Character-level lemmas -/

theorem toNat_ofNat_valid (n : Nat) (h : n < 55296) : (Char.ofNat n).toNat = n := by
  have hv : n.isValidChar := Or.inl h
  simp only [Char.ofNat, dif_pos hv, Char.ofNatAux, Char.toNat]
  show (UInt32.mk (BitVec.ofNatLt n _)).toNat = n
  simp [UInt32.toNat, BitVec.toNat_ofNatLt]

theorem charToLower_idem (c : Char) : charToLower (charToLower c) = charToLower c := by
  unfold charToLower
  by_cases h : (65 ≤ c.toNat && c.toNat ≤ 90) = true
  · have hb : 65 ≤ c.toNat ∧ c.toNat ≤ 90 := by
      simpa [Bool.and_eq_true, decide_eq_true_eq] using h
    have ht : (Char.ofNat (c.toNat + 32)).toNat = c.toNat + 32 :=
      toNat_ofNat_valid _ (by omega)
    have hnot : ((65 : Nat) ≤ (Char.ofNat (c.toNat + 32)).toNat ∧
        (Char.ofNat (c.toNat + 32)).toNat ≤ 90) → False := by
      rw [ht]; omega
    simp only [h, if_true]
    simp [Bool.and_eq_true, decide_eq_true_eq, hnot]
    intro h1 h2
    exact absurd ⟨h1, h2⟩ hnot
  · simp only [Bool.not_eq_true] at h
    simp [h]

theorem charToUpper_idem (c : Char) : charToUpper (charToUpper c) = charToUpper c := by
  unfold charToUpper
  by_cases h : (97 ≤ c.toNat && c.toNat ≤ 122) = true
  · have hb : 97 ≤ c.toNat ∧ c.toNat ≤ 122 := by
      simpa [Bool.and_eq_true, decide_eq_true_eq] using h
    have ht : (Char.ofNat (c.toNat - 32)).toNat = c.toNat - 32 :=
      toNat_ofNat_valid _ (by omega)
    have hnot : ((97 : Nat) ≤ (Char.ofNat (c.toNat - 32)).toNat ∧
        (Char.ofNat (c.toNat - 32)).toNat ≤ 122) → False := by
      rw [ht]; omega
    simp only [h, if_true]
    simp [Bool.and_eq_true, decide_eq_true_eq, hnot]
    intro h1 h2
    exact absurd ⟨h1, h2⟩ hnot
  · simp only [Bool.not_eq_true] at h
    simp [h]

theorem isUpperCh_charToLower (c : Char) : isUpperCh (charToLower c) = false := by
  unfold charToLower isUpperCh
  by_cases h : (65 ≤ c.toNat && c.toNat ≤ 90) = true
  · have hb : 65 ≤ c.toNat ∧ c.toNat ≤ 90 := by
      simpa [Bool.and_eq_true, decide_eq_true_eq] using h
    have ht : (Char.ofNat (c.toNat + 32)).toNat = c.toNat + 32 :=
      toNat_ofNat_valid _ (by omega)
    simp only [h, if_true, ht]
    simp [Bool.and_eq_true, decide_eq_true_eq]
    omega
  · simp only [Bool.not_eq_true] at h
    simp [h]

theorem charToLower_of_not_upper (c : Char) (h : isUpperCh c = false) :
    charToLower c = c := by
  unfold isUpperCh at h
  unfold charToLower
  simp [h]

@[simp] theorem toList_mk (l : List Char) : String.toList ⟨l⟩ = l := rfl

theorem map_charToLower_of_no_upper (l : List Char)
    (h : ∀ c ∈ l, isUpperCh c = false) : l.map charToLower = l := by
  have := List.map_congr_left (l := l) (f := charToLower) (g := fun a => a)
    (fun a ha => charToLower_of_not_upper a (h a ha))
  simpa using this

/-! ## Claim C1 — handling of an absent declared field (code bug)

The spec (§4.3) and the repository's own test
`test_named_struct_with_missing_optional_field` require an absent
field's wire name to be decoded as a null marker, so that
`Option`-typed fields yield `None` and collections yield empty.  The
generated decoder (src/data_struct.rs:153-157 and 182-186) instead
returns the missing-field error for every absent field. -/

/-- C1: decoding the tests' own map (which lacks the `email` key) into
the `Person` struct yields the missing-field error, even though the
`Option<String>` and `Vec<String>` codecs do accept the null marker;
the generated decoder never substitutes it. -/
theorem decode_missing_optional_field_errors :
    decodeNamed personSpecs personMissingEmailInput =
      .error (missingFieldError "email") ∧
    fromValue .optStr .nil = .ok (.optStr none) ∧
    fromValue .listStr .nil = .ok (.listStr []) :=
  ⟨rfl, rfl, rfl⟩

/-! ## Claim C9 — rename override precedence -/

/-- C9: `transform_field_name` precedence: a field-level `rename`
override is returned unconditionally even under a type-level
`rename_all`; with no directive the name passes through unchanged;
otherwise the directive's case rule is applied.  Concretely, a field
`MyField` with `rename_all = "snake_case"` and `rename = "id"` encodes
as `"id"`, while without the override it would encode as
`"my_field"`. -/
theorem transform_field_name_override_precedence (name : String)
    (ra : Option RenameRule) (o : String) (r : RenameRule) :
    transformFieldName name ra (some o) = o ∧
    transformFieldName name none none = name ∧
    transformFieldName name (some r) none = transformVariantName name (some r) ∧
    transformFieldName "MyField" (some .snake) (some "id") = "id" ∧
    transformFieldName "MyField" (some .snake) none = "my_field" :=
  ⟨rfl, rfl, rfl, rfl, by decide⟩

/-! ## Claim C10 — `num_of_args` agrees with `write_redis_args` -/

theorem numArgsRVal_eq_length (v : RVal) :
    numArgsRVal v = (writeArgsRVal v).length := by
  cases v with
  | str s => rfl
  | nat n => rfl
  | optStr o => cases o <;> rfl
  | listStr l => simp [numArgsRVal, writeArgsRVal]

theorem numArgsNamed_foldl (l : List (FieldSpec × RVal)) (c : Nat) :
    l.foldl (fun count f => count + 1 + numArgsRVal f.2) c =
      c + (flatMapL (fun f => utf8Encode f.1.wireName :: writeArgsRVal f.2) l).length := by
  induction l generalizing c with
  | nil => simp [flatMapL]
  | cons a l ih =>
    rw [List.foldl_cons, ih]
    simp only [flatMapL_cons, List.length_append, List.length_cons, numArgsRVal_eq_length]
    omega

theorem numArgsTuple_foldl (l : List RVal) (c : Nat) :
    l.foldl (fun count v => count + numArgsRVal v) c =
      c + (flatMapL writeArgsRVal l).length := by
  induction l generalizing c with
  | nil => simp [flatMapL]
  | cons a l ih =>
    rw [List.foldl_cons, ih]
    simp only [flatMapL_cons, List.length_append, numArgsRVal_eq_length]
    omega

/-! ## Claim C3 — the PascalCase algorithm (corrected)

`to_pascal_case` splits only at `_`/`-` boundaries; a lower-to-upper
case transition is not a word boundary, and every non-initial character
of a word is folded to lower case, so interior capitals of a camelCase
input are lost. -/

theorem splitSepWords_ne_nil (cs : List Char) : splitSepWords cs ≠ [] := by
  cases cs with
  | nil => simp [splitSepWords]
  | cons c rest =>
    unfold splitSepWords
    by_cases h : isSepCh c = true
    · simp [h]
    · simp only [h]
      cases splitSepWords rest <;> simp

theorem pascalAux_spec (cs : List Char) :
    pascalAux true cs = flatMapL capitalizeWord (splitSepWords cs) ∧
    pascalAux false cs =
      (match splitSepWords cs with
        | w :: ws => w.map charToLower ++ flatMapL capitalizeWord ws
        | [] => []) := by
  induction cs with
  | nil => exact ⟨rfl, rfl⟩
  | cons c rest ih =>
    by_cases hc : isSepCh c = true
    · constructor
      · show pascalAux true (c :: rest) = _
        unfold pascalAux splitSepWords
        simp [hc, ih.1, flatMapL, capitalizeWord]
      · show pascalAux false (c :: rest) = _
        unfold pascalAux splitSepWords
        simp [hc, ih.1, flatMapL, capitalizeWord]
    · obtain ⟨w, ws, hsplit⟩ : ∃ w ws, splitSepWords rest = w :: ws := by
        cases h : splitSepWords rest with
        | nil => exact absurd h (splitSepWords_ne_nil rest)
        | cons w ws => exact ⟨w, ws, rfl⟩
      have hfalse := ih.2
      rw [hsplit] at hfalse
      constructor
      · show pascalAux true (c :: rest) = _
        unfold pascalAux splitSepWords
        simp [hc, hsplit, hfalse, flatMapL, capitalizeWord]
      · show pascalAux false (c :: rest) = _
        unfold pascalAux splitSepWords
        simp [hc, hsplit, hfalse, flatMapL, capitalizeWord]

/-- C3 counterexample: the claim predicts that a lower-to-upper
transition starts a new word whose capital is kept, so
`PascalCase("myField")` would be `"MyField"`; `to_pascal_case` actually
folds the interior capital and yields `"Myfield"`. -/
theorem pascal_case_counterexample :
    toPascalCase "myField" = "Myfield" ∧
    ¬ toPascalCase "myField" = "MyField" := by
  constructor
  · rfl
  · decide

/-- C3 amended: `to_pascal_case` splits words at `_`/`-` boundaries
only (case transitions are not boundaries), upper-cases each word's
first letter, lower-cases the remaining letters, and joins the words
with no separator; `PascalCase("my_field") = "MyField"` holds. -/
theorem pascal_case_amended (s : String) :
    toPascalCase s = pascalSpec s ∧ toPascalCase "my_field" = "MyField" := by
  refine ⟨?_, rfl⟩
  unfold toPascalCase pascalSpec
  exact congrArg String.mk (pascalAux_spec s.toList).1

/-! ## Claim C8 — idempotence of the case rules (corrected)

The four rules lowercase, UPPERCASE, snake_case and kebab-case are
idempotent; PascalCase and camelCase are not, because a second
application folds the interior capitals the first application produced
at `_`/`-` boundaries. -/

theorem strToLower_idem (s : String) : strToLower (strToLower s) = strToLower s := by
  unfold strToLower
  rw [toList_mk, List.map_map]
  exact congrArg String.mk
    (List.map_congr_left (fun a _ => charToLower_idem a))

theorem strToUpper_idem (s : String) : strToUpper (strToUpper s) = strToUpper s := by
  unfold strToUpper
  rw [toList_mk, List.map_map]
  exact congrArg String.mk
    (List.map_congr_left (fun a _ => charToUpper_idem a))

theorem snakeAux_no_upper (cs : List Char) :
    ∀ f p c, c ∈ snakeAux f p cs → isUpperCh c = false := by
  induction cs with
  | nil => intro f p c h; simp [snakeAux] at h
  | cons a rest ih =>
    intro f p c h
    unfold snakeAux at h
    rcases List.mem_append.mp h with h1 | h2
    · have : c = '_' := by
        by_cases hs : snakeSep f p a rest = true
        · simpa [hs] using h1
        · simp [Bool.not_eq_true] at hs
          simp [hs] at h1
      rw [this]; decide
    · rcases List.mem_cons.mp h2 with h3 | h4
      · rw [h3]; exact isUpperCh_charToLower a
      · exact ih false (isLowerCh a) c h4

theorem snakeAux_of_no_upper (cs : List Char) :
    ∀ f p, (∀ c ∈ cs, isUpperCh c = false) →
      snakeAux f p cs = cs.map charToLower := by
  induction cs with
  | nil => intro f p _; rfl
  | cons a rest ih =>
    intro f p h
    have ha : isUpperCh a = false := h a (List.mem_cons_self a rest)
    have hsep : snakeSep f p a rest = false := by
      unfold snakeSep; simp [ha]
    have htail := ih false (isLowerCh a) (fun c hc => h c (List.mem_cons_of_mem a hc))
    simp [snakeAux, hsep, htail]

theorem toSnakeCase_idem (s : String) :
    toSnakeCase (toSnakeCase s) = toSnakeCase s := by
  unfold toSnakeCase
  rw [toList_mk]
  rw [snakeAux_of_no_upper _ _ _ (fun c hc => snakeAux_no_upper _ _ _ c hc)]
  exact congrArg String.mk
    (map_charToLower_of_no_upper _ (fun c hc => snakeAux_no_upper _ _ _ c hc))

theorem isUpperCh_dashRep (c : Char) (h : isUpperCh c = false) :
    isUpperCh (dashRep c) = false := by
  unfold dashRep
  by_cases hc : c = '_'
  · simp [hc]; decide
  · simp [hc, h]

theorem dashRep_idem (c : Char) : dashRep (dashRep c) = dashRep c := by
  unfold dashRep
  by_cases hc : c = '_'
  · simp [hc]
  · simp [hc]

theorem toKebabCase_idem (s : String) :
    toKebabCase (toKebabCase s) = toKebabCase s := by
  unfold toKebabCase toSnakeCase
  simp only [toList_mk]
  have hnu : ∀ c ∈ (snakeAux true false s.toList).map dashRep, isUpperCh c = false := by
    intro c hc
    rcases List.mem_map.mp hc with ⟨a, ha, rfl⟩
    exact isUpperCh_dashRep a (snakeAux_no_upper _ _ _ a ha)
  rw [snakeAux_of_no_upper _ _ _ hnu, map_charToLower_of_no_upper _ hnu, List.map_map]
  exact congrArg String.mk (List.map_congr_left (fun a _ => dashRep_idem a))

/-- C8 counterexample: the claim asserts idempotence for every rule;
it fails for PascalCase (and camelCase): a second application of
PascalCase to `PascalCase("my_field") = "MyField"` yields `"Myfield"`,
not `"MyField"`. -/
theorem transform_idempotence_counterexample :
    ¬ transformVariantName (transformVariantName "my_field" (some .pascal))
        (some .pascal) = transformVariantName "my_field" (some .pascal) ∧
    transformVariantName (transformVariantName "my_field" (some .pascal))
        (some .pascal) = "Myfield" ∧
    ¬ transformVariantName (transformVariantName "my_field" (some .camel))
        (some .camel) = transformVariantName "my_field" (some .camel) ∧
    transformVariantName (transformVariantName "my_field" (some .camel))
        (some .camel) = "myfield" := by
  refine ⟨by decide, rfl, by decide, rfl⟩

/-- C8 amended: the transformation is idempotent for the rules
lowercase, UPPERCASE, snake_case and kebab-case (for PascalCase and
camelCase it is not, see the counterexample). -/
theorem transform_idempotence_amended (s : String) :
    transformVariantName (transformVariantName s (some .lowercase))
      (some .lowercase) = transformVariantName s (some .lowercase) ∧
    transformVariantName (transformVariantName s (some .uppercase))
      (some .uppercase) = transformVariantName s (some .uppercase) ∧
    transformVariantName (transformVariantName s (some .snake))
      (some .snake) = transformVariantName s (some .snake) ∧
    transformVariantName (transformVariantName s (some .kebab))
      (some .kebab) = transformVariantName s (some .kebab) :=
  ⟨strToLower_idem s, strToUpper_idem s, toSnakeCase_idem s, toKebabCase_idem s⟩

/-! ## Enum decode lemmas -/

theorem findVariant_eq_none (s : String) (l : List String) (h : s ∉ l) :
    findVariant s l = none := by
  induction l with
  | nil => rfl
  | cons x rest ih =>
    have hx : ¬ x = s := fun he => h (he ▸ List.mem_cons_self x rest)
    have hr : s ∉ rest := fun hm => h (List.mem_cons_of_mem x hm)
    simp [findVariant, hx, ih hr]

theorem findVariant_of_mem (s : String) (l : List String) (h : s ∈ l) :
    ∃ i, findVariant s l = some i ∧ l[i]? = some s := by
  induction l with
  | nil => cases h
  | cons x rest ih =>
    by_cases hx : x = s
    · exact ⟨0, by simp [findVariant, hx], by simp [hx]⟩
    · have hr : s ∈ rest := by
        rcases List.mem_cons.mp h with he | hm
        · exact absurd he.symm hx
        · exact hm
      obtain ⟨i, hfind, hget⟩ := ih hr
      exact ⟨i + 1, by simp [findVariant, hx, hfind], by simpa using hget⟩

theorem joinSep_mem (sep n : String) (l : List String) (h : n ∈ l) :
    ∃ p q, joinSep sep l = p ++ n ++ q := by
  induction l with
  | nil => cases h
  | cons x rest ih =>
    rcases List.mem_cons.mp h with he | hr
    · subst he
      cases rest with
      | nil =>
        exact ⟨"", "", by
          simp [joinSep, String.append_empty, String.empty_append]⟩
      | cons y t =>
        refine ⟨"", sep ++ joinSep sep (y :: t), ?_⟩
        show n ++ sep ++ joinSep sep (y :: t) = "" ++ n ++ (sep ++ joinSep sep (y :: t))
        rw [String.empty_append, String.append_assoc]
    · cases rest with
      | nil => cases hr
      | cons y t =>
        obtain ⟨p, q, hpq⟩ := ih hr
        refine ⟨x ++ sep ++ p, q, ?_⟩
        show x ++ sep ++ joinSep sep (y :: t) = x ++ sep ++ p ++ n ++ q
        rw [hpq]
        simp [String.append_assoc]

/-! ## Claim C5 — the unknown-variant message -/

/-- C5: decoding a binary string that matches no variant wire name
yields the unknown-variant error, whose message joins every variant
wire name in declaration order; in particular the message contains each
variant's wire name. -/
theorem unknown_variant_message_lists_variants (tyName s : String)
    (variants : List String) (data : List Nat)
    (hdec : utf8Decode data = some s) (hmem : s ∉ variants) :
    decodeEnum tyName variants (.bulkString data) =
      .error (unknownVariantError tyName variants s) ∧
    ∀ n ∈ variants, ∃ p q,
      (unknownVariantError tyName variants s).detail = some (p ++ n ++ q) := by
  constructor
  · show (match utf8Decode data with
      | some t => parseEnumString tyName variants t
      | none => Except.error enumUtf8Error) = _
    rw [hdec]
    show (match findVariant s variants with
      | some i => Except.ok i
      | none => Except.error (unknownVariantError tyName variants s)) = _
    rw [findVariant_eq_none s variants hmem]
  · intro n hn
    obtain ⟨p, q, hpq⟩ := joinSep_mem ", " n variants hn
    refine ⟨"Unknown variant '" ++ s ++ "' for " ++ tyName ++
      ". Valid variants: [" ++ p, q ++ "]", ?_⟩
    unfold unknownVariantError
    rw [hpq]
    simp [String.append_assoc]

/-- C5 witness: decoding `b"Purple"` against variants
`[Red, Green, Blue]` produces a message containing each of the three
names. -/
theorem unknown_variant_message_witness :
    utf8Decode (utf8Encode "Purple") = some "Purple" ∧
    "Purple" ∉ ["Red", "Green", "Blue"] ∧
    (decodeEnum "Color" ["Red", "Green", "Blue"]
        (.bulkString (utf8Encode "Purple")) =
      .error (unknownVariantError "Color" ["Red", "Green", "Blue"] "Purple") ∧
    ∀ n ∈ ["Red", "Green", "Blue"], ∃ p q,
      (unknownVariantError "Color" ["Red", "Green", "Blue"] "Purple").detail =
        some (p ++ n ++ q)) :=
  ⟨rfl, by decide,
    unknown_variant_message_lists_variants "Color" "Purple"
      ["Red", "Green", "Blue"] (utf8Encode "Purple") rfl (by decide)⟩

/-! ## Claim C6 — enum wire-shape acceptance -/

/-- C6: a valid variant token decodes to the same variant from a
simple string, a verbatim string or a UTF-8 binary string; a non-UTF-8
binary string yields the encoding error; and null, integer, array, map
and boolean wire shapes always yield the type-mismatch errors. -/
theorem enum_wire_shape_acceptance (tyName fmt s : String)
    (variants : List String) (good bad : List Nat) (i : Int)
    (items : List Value) (pairs : List (Value × Value)) (b : Bool)
    (hgood : utf8Decode good = some s) (hbad : utf8Decode bad = none)
    (hmem : s ∈ variants) :
    decodeEnum tyName variants (.simpleString s) =
      decodeEnum tyName variants (.verbatimString fmt s) ∧
    decodeEnum tyName variants (.bulkString good) =
      decodeEnum tyName variants (.simpleString s) ∧
    (∃ j, decodeEnum tyName variants (.simpleString s) = .ok j ∧
      variants[j]? = some s) ∧
    decodeEnum tyName variants (.bulkString bad) = .error enumUtf8Error ∧
    decodeEnum tyName variants .nil = .error (enumNilError tyName) ∧
    decodeEnum tyName variants (.int i) = .error (enumShapeError tyName) ∧
    decodeEnum tyName variants (.array items) = .error (enumShapeError tyName) ∧
    decodeEnum tyName variants (.map pairs) = .error (enumShapeError tyName) ∧
    decodeEnum tyName variants (.boolean b) = .error (enumShapeError tyName) := by
  refine ⟨rfl, ?_, ?_, ?_, rfl, rfl, rfl, rfl, rfl⟩
  · show (match utf8Decode good with
      | some t => parseEnumString tyName variants t
      | none => Except.error enumUtf8Error) = _
    rw [hgood]
    rfl
  · obtain ⟨j, hfind, hget⟩ := findVariant_of_mem s variants hmem
    refine ⟨j, ?_, hget⟩
    show (match findVariant s variants with
      | some i => Except.ok i
      | none => Except.error (unknownVariantError tyName variants s)) = Except.ok j
    rw [hfind]
  · show (match utf8Decode bad with
      | some t => parseEnumString tyName variants t
      | none => Except.error enumUtf8Error) = _
    rw [hbad]

/-- C6 witness: the token `Green` decodes identically (to variant index
1) from all three string shapes, `[0xFF]` is rejected as invalid UTF-8,
and integer/array inputs are rejected as type mismatches. -/
theorem enum_wire_shape_acceptance_witness :
    utf8Decode (utf8Encode "Green") = some "Green" ∧
    utf8Decode [0xFF] = none ∧
    "Green" ∈ ["Red", "Green", "Blue"] ∧
    (decodeEnum "Color" ["Red", "Green", "Blue"] (.simpleString "Green") =
      decodeEnum "Color" ["Red", "Green", "Blue"] (.verbatimString "txt" "Green") ∧
    decodeEnum "Color" ["Red", "Green", "Blue"] (.bulkString (utf8Encode "Green")) =
      decodeEnum "Color" ["Red", "Green", "Blue"] (.simpleString "Green") ∧
    (∃ j, decodeEnum "Color" ["Red", "Green", "Blue"] (.simpleString "Green") = .ok j ∧
      ["Red", "Green", "Blue"][j]? = some "Green") ∧
    decodeEnum "Color" ["Red", "Green", "Blue"] (.bulkString [0xFF]) =
      .error enumUtf8Error ∧
    decodeEnum "Color" ["Red", "Green", "Blue"] .nil = .error (enumNilError "Color") ∧
    decodeEnum "Color" ["Red", "Green", "Blue"] (.int 3) =
      .error (enumShapeError "Color") ∧
    decodeEnum "Color" ["Red", "Green", "Blue"] (.array []) =
      .error (enumShapeError "Color") ∧
    decodeEnum "Color" ["Red", "Green", "Blue"] (.map []) =
      .error (enumShapeError "Color") ∧
    decodeEnum "Color" ["Red", "Green", "Blue"] (.boolean true) =
      .error (enumShapeError "Color")) :=
  ⟨rfl, rfl, by decide,
    enum_wire_shape_acceptance "Color" "txt" "Green" ["Red", "Green", "Blue"]
      (utf8Encode "Green") [0xFF] 3 [] [] true rfl rfl (by decide)⟩

/-! ## Claim C7 — tuple arity and positional decode -/

theorem decodeElemsFrom_ok (l : List ((RTy × Value) × RVal)) :
    ∀ i, (∀ x ∈ l, fromValue x.1.1 x.1.2 = .ok x.2) →
      decodeElemsFrom i (l.map (fun x => x.1.1)) (l.map (fun x => x.1.2)) =
        .ok (l.map (fun x => x.2)) := by
  induction l with
  | nil => intro i _; rfl
  | cons a rest ih =>
    intro i h
    have ha := h a (List.mem_cons_self a rest)
    have hrest := ih (i + 1) (fun x hx => h x (List.mem_cons_of_mem a hx))
    simp [decodeElemsFrom, ha, hrest]

theorem decodeElemsFrom_err (pre : List ((RTy × Value) × RVal)) :
    ∀ i (ty : RTy) (v : Value) (e : RedisError) (tys' : List RTy)
      (vs' : List Value),
      (∀ x ∈ pre, fromValue x.1.1 x.1.2 = .ok x.2) →
      fromValue ty v = .error e →
      decodeElemsFrom i (pre.map (fun x => x.1.1) ++ ty :: tys')
          (pre.map (fun x => x.1.2) ++ v :: vs') =
        .error (tupleElemError (i + pre.length) e) := by
  induction pre with
  | nil =>
    intro i ty v e tys' vs' _ he
    simp [decodeElemsFrom, he]
  | cons a rest ih =>
    intro i ty v e tys' vs' h he
    have ha := h a (List.mem_cons_self a rest)
    have hrest := ih (i + 1) ty v e tys' vs'
      (fun x hx => h x (List.mem_cons_of_mem a hx)) he
    have hidx : i + 1 + rest.length = i + (a :: rest).length := by
      simp only [List.length_cons]
      omega
    rw [hidx] at hrest
    show (match fromValue a.1.1 a.1.2 with
      | .ok r =>
        (match decodeElemsFrom (i + 1) (List.map (fun x => x.1.1) rest ++ ty :: tys')
            (List.map (fun x => x.1.2) rest ++ v :: vs') with
          | .ok rs => Except.ok (r :: rs)
          | .error err => Except.error err)
      | .error err => Except.error (tupleElemError i err)) =
      Except.error (tupleElemError (i + (a :: rest).length) e)
    rw [ha, hrest]

/-- C7: the tuple decoder requires an array of exactly the declared
length — any other length yields the arity error carrying the expected
and actual counts — and decodes elements positionally, wrapping the
first failing element's error with its index. -/
theorem tuple_decode_arity_and_positional :
    (∀ (tys : List RTy) (items : List Value),
      items.length ≠ tys.length →
      decodeTuple tys (.array items) =
        .error (arityError tys.length items.length)) ∧
    (∀ (l : List ((RTy × Value) × RVal)),
      (∀ x ∈ l, fromValue x.1.1 x.1.2 = .ok x.2) →
      decodeTuple (l.map (fun x => x.1.1)) (.array (l.map (fun x => x.1.2))) =
        .ok (l.map (fun x => x.2))) ∧
    (∀ (pre : List ((RTy × Value) × RVal)) (ty : RTy) (v : Value)
      (e : RedisError) (post : List (RTy × Value)),
      (∀ x ∈ pre, fromValue x.1.1 x.1.2 = .ok x.2) →
      fromValue ty v = .error e →
      decodeTuple (pre.map (fun x => x.1.1) ++ ty :: post.map (fun p => p.1))
          (.array (pre.map (fun x => x.1.2) ++ v :: post.map (fun p => p.2))) =
        .error (tupleElemError pre.length e)) := by
  refine ⟨?_, ?_, ?_⟩
  · intro tys items hne
    simp [decodeTuple, hne]
  · intro l h
    have hlen : (l.map (fun x => x.1.2)).length = (l.map (fun x => x.1.1)).length := by
      simp
    simp only [decodeTuple, hlen, ne_eq, not_true_eq_false, if_false]
    exact decodeElemsFrom_ok l 0 h
  · intro pre ty v e post h he
    have hlen : (pre.map (fun x => x.1.2) ++ v :: post.map (fun p => p.2)).length =
        (pre.map (fun x => x.1.1) ++ ty :: post.map (fun p => p.1)).length := by
      simp
    simp only [decodeTuple, hlen, ne_eq, not_true_eq_false, if_false]
    have := decodeElemsFrom_err pre 0 ty v e (post.map (fun p => p.1))
      (post.map (fun p => p.2)) h he
    simpa using this

/-- C7 witness: a 3-element array into a 2-field tuple yields the arity
error with expected 2 and actual 3; a 1-element array fails the same
way; and a failing element is wrapped with its index. -/
theorem tuple_decode_witness :
    decodeTuple [.nat, .nat] (.array [bulkStr "1", bulkStr "2", bulkStr "3"]) =
      .error (arityError 2 3) ∧
    decodeTuple [.nat, .nat] (.array [bulkStr "1"]) = .error (arityError 2 1) ∧
    decodeTuple [.nat, .nat] (.array [bulkStr "1", bulkStr "oops"]) =
      .error (tupleElemError 1 invalidTypeError) :=
  ⟨tuple_decode_arity_and_positional.1 [.nat, .nat]
      [bulkStr "1", bulkStr "2", bulkStr "3"] (by decide),
   tuple_decode_arity_and_positional.1 [.nat, .nat] [bulkStr "1"] (by decide),
   by
    have := tuple_decode_arity_and_positional.2.2
      [((.nat, bulkStr "1"), .nat 1)] .nat (bulkStr "oops") invalidTypeError []
      (by intro x hx; rcases List.mem_singleton.mp hx with rfl; rfl) rfl
    simpa using this⟩

/-! ## Named-struct decode lemmas -/

theorem flattenPairsV_length (kvs : List (Value × Value)) :
    (flattenPairsV kvs).length = 2 * kvs.length := by
  induction kvs with
  | nil => rfl
  | cons a rest ih =>
    simp only [flattenPairsV, flatMapL_cons, List.length_append, List.length_cons,
      List.length_nil] at *
    omega

theorem buildPairsMap_flatten (kvs : List (Value × Value)) :
    ∀ m, buildPairsMap (flattenPairsV kvs) m = buildMapPairs kvs m := by
  induction kvs with
  | nil => intro m; rfl
  | cons a rest ih =>
    intro m
    show buildPairsMap (a.1 :: a.2 :: flattenPairsV rest) m = _
    unfold buildPairsMap buildMapPairs
    cases stringFromValue a.1 with
    | ok s => exact ih (insertLookup m s a.2)
    | error e => rfl

theorem foldInsert_lookup (skvs : List (String × Value)) :
    ∀ m k, foldInsert m skvs k =
      (match lastLookup skvs k with
        | some v => some v
        | none => m k) := by
  induction skvs with
  | nil => intro m k; rfl
  | cons a rest ih =>
    obtain ⟨ka, va⟩ := a
    intro m k
    show foldInsert (insertLookup m ka va) rest k = _
    rw [ih]
    unfold insertLookup
    show (match lastLookup rest k with
      | some v => some v
      | none => if k = ka then some va else m k) =
      (match (match lastLookup rest k with
        | some v => some v
        | none => if k = ka then some va else none) with
      | some v => some v
      | none => m k)
    cases lastLookup rest k with
    | some v => rfl
    | none =>
      by_cases hk : k = ka
      · simp [hk]
      · simp [hk]

theorem foldInsert_empty (skvs : List (String × Value)) :
    foldInsert emptyLookup skvs = fun k => lastLookup skvs k := by
  funext k
  rw [foldInsert_lookup]
  cases lastLookup skvs k <;> rfl

theorem buildMapPairs_simple (skvs : List (String × Value)) :
    ∀ m, buildMapPairs (skvs.map (fun p => (Value.simpleString p.1, p.2))) m =
      .ok (foldInsert m skvs) := by
  induction skvs with
  | nil => intro m; rfl
  | cons a rest ih =>
    intro m
    show buildMapPairs ((Value.simpleString a.1, a.2) :: _) m = _
    unfold buildMapPairs
    exact ih (insertLookup m a.1 a.2)

theorem buildMapPairs_entries (fields : List (FieldSpec × RVal)) :
    ∀ m, (∀ f ∈ fields,
      stringFromValue (.bulkString (utf8Encode f.1.wireName)) = .ok f.1.wireName) →
      buildMapPairs (encodedPairs fields) m =
        .ok (foldInsert m (encodedEntries fields)) := by
  induction fields with
  | nil => intro m _; rfl
  | cons f rest ih =>
    intro m hkey
    have hf := hkey f (List.mem_cons_self f rest)
    show buildMapPairs ((Value.bulkString (utf8Encode f.1.wireName),
      Value.bulkString ((writeArgsRVal f.2).headD [])) :: encodedPairs rest) m = _
    unfold buildMapPairs
    rw [hf]
    exact ih _ (fun g hg => hkey g (List.mem_cons_of_mem f hg))

theorem lastLookup_none (skvs : List (String × Value)) :
    ∀ k, k ∉ skvs.map Prod.fst → lastLookup skvs k = none := by
  induction skvs with
  | nil => intro k _; rfl
  | cons a rest ih =>
    obtain ⟨ka, va⟩ := a
    intro k h
    have hk : ¬ k = ka := fun he => h (by simp [he])
    have hr : k ∉ rest.map Prod.fst := fun hm => h (by simp [hm])
    show (match lastLookup rest k with
      | some v => some v
      | none => if k = ka then some va else none) = none
    rw [ih k hr]
    simp [hk]

theorem lastLookup_of_nodup (skvs : List (String × Value)) :
    ∀ (k : String) (v : Value), (skvs.map Prod.fst).Nodup →
      (k, v) ∈ skvs → lastLookup skvs k = some v := by
  induction skvs with
  | nil => intro k v _ hmem; cases hmem
  | cons a rest ih =>
    obtain ⟨ka, va⟩ := a
    intro k v hnodup hmem
    rw [List.map_cons, List.nodup_cons] at hnodup
    rcases List.mem_cons.mp hmem with he | hr
    · have hk : k = ka := congrArg Prod.fst he
      have hv : v = va := congrArg Prod.snd he
      subst hk
      subst hv
      show (match lastLookup rest k with
        | some w => some w
        | none => if k = k then some v else none) = some v
      rw [lastLookup_none rest k hnodup.1]
      simp
    · show (match lastLookup rest k with
        | some w => some w
        | none => if k = ka then some va else none) = some v
      rw [ih k v hnodup.2 hr]

theorem decodeFieldsFrom_ok (fields : List (FieldSpec × RVal))
    (m : String → Option Value) :
    (∀ f ∈ fields, ∃ v, m f.1.wireName = some v ∧
      fromValue f.1.ty v = .ok f.2) →
    decodeFieldsFrom m (fields.map (fun f => f.1)) =
      .ok (fields.map (fun f => f.2)) := by
  induction fields with
  | nil => intro _; rfl
  | cons f rest ih =>
    intro h
    obtain ⟨v, hv, hdec⟩ := h f (List.mem_cons_self f rest)
    have htail := ih (fun g hg => h g (List.mem_cons_of_mem f hg))
    show (match m f.1.wireName with
      | some w =>
        (match fromValue f.1.ty w with
          | .ok r =>
            (match decodeFieldsFrom m (rest.map (fun (g : FieldSpec × RVal) => g.1)) with
              | .ok rs => Except.ok (r :: rs)
              | .error e => Except.error e)
          | .error e => Except.error (fieldFailureError f.1.wireName e))
      | none => Except.error (missingFieldError f.1.wireName)) = _
    rw [hv]
    show (match fromValue f.1.ty v with
      | .ok r =>
        (match decodeFieldsFrom m (rest.map (fun (g : FieldSpec × RVal) => g.1)) with
          | .ok rs => Except.ok (r :: rs)
          | .error e => Except.error e)
      | .error e => Except.error (fieldFailureError f.1.wireName e)) = _
    rw [hdec]
    show (match decodeFieldsFrom m (rest.map (fun (g : FieldSpec × RVal) => g.1)) with
      | .ok rs => Except.ok (f.2 :: rs)
      | .error e => Except.error e) = _
    rw [htail]
    rfl

theorem encodeNamed_flatten (fields : List (FieldSpec × RVal))
    (hskip : ∀ f ∈ fields, f.1.skip = false)
    (hone : ∀ f ∈ fields, (writeArgsRVal f.2).length = 1) :
    (encodeNamed fields).map Value.bulkString = flattenPairsV (encodedPairs fields) := by
  induction fields with
  | nil => rfl
  | cons f rest ih =>
    have hf : f.1.skip = false := hskip f (List.mem_cons_self f rest)
    obtain ⟨b, hb⟩ := List.length_eq_one.mp (hone f (List.mem_cons_self f rest))
    have htail := ih (fun g hg => hskip g (List.mem_cons_of_mem f hg))
      (fun g hg => hone g (List.mem_cons_of_mem f hg))
    unfold encodeNamed at htail ⊢
    rw [List.filter_cons_of_pos (by simp [hf])]
    rw [flatMapL_cons, List.map_append, htail]
    show (Value.bulkString (utf8Encode f.1.wireName) ::
        (writeArgsRVal f.2).map Value.bulkString) ++ _ = _
    rw [hb]
    show [Value.bulkString (utf8Encode f.1.wireName),
        Value.bulkString b] ++ flattenPairsV (encodedPairs rest) =
      flattenPairsV (encodedPairs (f :: rest))
    show _ = [Value.bulkString (utf8Encode f.1.wireName),
        Value.bulkString ((writeArgsRVal f.2).headD [])] ++
          flattenPairsV (encodedPairs rest)
    rw [hb]
    rfl

theorem even_eq_flatten : (items : List Value) → items.length % 2 = 0 →
    ∃ kvs, items = flattenPairsV kvs
  | [], _ => ⟨[], rfl⟩
  | [_], h => by simp at h
  | a :: b :: rest, h => by
    have h' : rest.length % 2 = 0 := by
      simp only [List.length_cons] at h
      omega
    obtain ⟨kvs, hkvs⟩ := even_eq_flatten rest h'
    exact ⟨(a, b) :: kvs, by simp [flattenPairsV, flatMapL_cons, hkvs]⟩

/-! ## Claim C4 — accepted and rejected wire shapes -/

/-- C4: the named-struct decoder accepts exactly the two supported wire
shapes and treats them identically — an even-length key-value array is
folded pairwise exactly like the native map of the same pairs, and the
built lookup is last-write-wins on duplicate names — while any other
shape (scalar, odd-length array, or null) yields one of the
shape-mismatch errors. -/
theorem named_struct_wire_shapes (specs : List FieldSpec)
    (vkvs : List (Value × Value)) (skvs : List (String × Value)) (v : Value)
    (hbad : badStructShape v = true) :
    decodeNamed specs (.array (flattenPairsV vkvs)) =
      decodeNamed specs (.map vkvs) ∧
    decodeNamed specs (.map (skvs.map (fun p => (Value.simpleString p.1, p.2)))) =
      decodeFieldsFrom (fun k => lastLookup skvs k) (regularFields specs) ∧
    (∀ items : List Value, items.length % 2 = 0 →
      ∃ kvs, items = flattenPairsV kvs) ∧
    isStructShapeError (decodeNamed specs v) = true := by
  refine ⟨?_, ?_, even_eq_flatten, ?_⟩
  · have hlen : (flattenPairsV vkvs).length % 2 = 0 := by
      rw [flattenPairsV_length]; omega
    show (if (flattenPairsV vkvs).length % 2 = 0 then
        (match buildPairsMap (flattenPairsV vkvs) emptyLookup with
          | .ok m => decodeFieldsFrom m (regularFields specs)
          | .error e => Except.error e)
      else Except.error structShapeError) = _
    rw [if_pos hlen, buildPairsMap_flatten]
    rfl
  · show (match buildMapPairs (skvs.map (fun p => (Value.simpleString p.1, p.2)))
        emptyLookup with
      | .ok m => decodeFieldsFrom m (regularFields specs)
      | .error e => Except.error e) = _
    rw [buildMapPairs_simple, foldInsert_empty]
  · cases v with
    | array items =>
      have hodd : ¬ items.length % 2 = 0 := by
        have : items.length % 2 == 1 := hbad
        simp only [beq_iff_eq] at this
        omega
      show isStructShapeError (if items.length % 2 = 0 then _ else
        Except.error structShapeError) = true
      rw [if_neg hodd]
      rfl
    | map pairs => cases hbad
    | nil => rfl
    | int i => rfl
    | bulkString b => rfl
    | simpleString s => rfl
    | verbatimString f t => rfl
    | okay => rfl
    | boolean b => rfl

/-- C4 witness: the flattened pair sequence decodes exactly like the
native map; a map with a duplicated key decodes through the
last-write-wins lookup; and the null shape is rejected. -/
theorem named_struct_wire_shapes_witness :
    badStructShape Value.nil = true ∧
    (decodeNamed personSpecs
        (.array (flattenPairsV [(bulkStr "name", bulkStr "Bob")])) =
      decodeNamed personSpecs (.map [(bulkStr "name", bulkStr "Bob")]) ∧
    decodeNamed personSpecs
        (.map ((([("k", bulkStr "v1"), ("k", bulkStr "v2")] :
            List (String × Value))).map
          (fun p => (Value.simpleString p.1, p.2)))) =
      decodeFieldsFrom
        (fun k => lastLookup [("k", bulkStr "v1"), ("k", bulkStr "v2")] k)
        (regularFields personSpecs) ∧
    (∀ items : List Value, items.length % 2 = 0 →
      ∃ kvs, items = flattenPairsV kvs) ∧
    isStructShapeError (decodeNamed personSpecs Value.nil) = true) :=
  ⟨rfl, named_struct_wire_shapes personSpecs [(bulkStr "name", bulkStr "Bob")]
    [("k", bulkStr "v1"), ("k", bulkStr "v2")] Value.nil rfl⟩

/-! ## Claim C2 — the encode/decode round trip -/

/-- C2: for an instance with no skipped fields, pairwise-distinct wire
names, decodable name keys, and fields whose values survive the wire
(each writes exactly one argument and decodes back to itself), decoding
the encoded form restores every field value. -/
theorem round_trip_decode_encode (fields : List (FieldSpec × RVal))
    (hskip : ∀ f ∈ fields, f.1.skip = false)
    (hnodup : (fields.map (fun f => f.1.wireName)).Nodup)
    (hkey : ∀ f ∈ fields,
      stringFromValue (.bulkString (utf8Encode f.1.wireName)) = .ok f.1.wireName)
    (hlossless : ∀ f ∈ fields, losslessField f) :
    decodeNamed (fields.map (fun f => f.1))
        (.array ((encodeNamed fields).map Value.bulkString)) =
      .ok (fields.map (fun f => f.2)) := by
  rw [encodeNamed_flatten fields hskip (fun f hf => (hlossless f hf).1)]
  have hlen : (flattenPairsV (encodedPairs fields)).length % 2 = 0 := by
    rw [flattenPairsV_length]; omega
  show (if (flattenPairsV (encodedPairs fields)).length % 2 = 0 then
      (match buildPairsMap (flattenPairsV (encodedPairs fields)) emptyLookup with
        | .ok m => decodeFieldsFrom m (regularFields (fields.map (fun f => f.1)))
        | .error e => Except.error e)
    else Except.error structShapeError) = _
  rw [if_pos hlen, buildPairsMap_flatten, buildMapPairs_entries fields emptyLookup hkey]
  have hreg : regularFields (fields.map (fun f => f.1)) = fields.map (fun f => f.1) := by
    unfold regularFields
    rw [List.filter_eq_self]
    intro spec hspec
    rcases List.mem_map.mp hspec with ⟨f, hf, rfl⟩
    simp [hskip f hf]
  show decodeFieldsFrom (foldInsert emptyLookup (encodedEntries fields))
      (regularFields (fields.map (fun f => f.1))) = _
  rw [hreg]
  apply decodeFieldsFrom_ok
  intro f hf
  refine ⟨Value.bulkString ((writeArgsRVal f.2).headD []), ?_, (hlossless f hf).2⟩
  rw [foldInsert_empty]
  have hkeys : (encodedEntries fields).map Prod.fst =
      fields.map (fun f => f.1.wireName) := by
    unfold encodedEntries
    rw [List.map_map]
    rfl
  have hmem : (f.1.wireName, Value.bulkString ((writeArgsRVal f.2).headD [])) ∈
      encodedEntries fields :=
    List.mem_map.mpr ⟨f, hf, rfl⟩
  have hnodup' : ((encodedEntries fields).map Prod.fst).Nodup := by
    rw [hkeys]; exact hnodup
  exact lastLookup_of_nodup (encodedEntries fields) f.1.wireName _ hnodup' hmem

/-- C2 witness: the concrete three-field instance round-trips. -/
theorem round_trip_decode_encode_witness :
    decodeNamed (c2Fields.map (fun f => f.1))
        (.array ((encodeNamed c2Fields).map Value.bulkString)) =
      .ok (c2Fields.map (fun f => f.2)) :=
  round_trip_decode_encode c2Fields
    (by intro f hf; fin_cases hf <;> rfl)
    (by decide)
    (by intro f hf; fin_cases hf <;> rfl)
    (by intro f hf; fin_cases hf <;> exact ⟨rfl, rfl⟩)

/-- C10: for every generated type the reported argument count equals
the number of arguments actually written: named-field structs count one
name argument plus the value's own count per non-skipped field, tuple
structs the sum of the elements' counts, unit structs zero, and enums
always one. -/
theorem num_of_args_matches_write_redis_args
    (fields : List (FieldSpec × RVal)) (vals : List RVal)
    (variants : List String) (i : Nat) :
    numArgsNamed fields = (encodeNamed fields).length ∧
    numArgsTuple vals = (encodeTuple vals).length ∧
    numArgsUnit = encodeUnit.length ∧
    numArgsEnum = (encodeEnumVariant variants i).length := by
  refine ⟨?_, ?_, rfl, rfl⟩
  · unfold numArgsNamed encodeNamed
    simpa using numArgsNamed_foldl (fields.filter (fun f => !f.1.skip)) 0
  · unfold numArgsTuple encodeTuple
    simpa using numArgsTuple_foldl vals 0

end RedisDerive
